import Mathlib

/-!
# Verification of the go-folderfort directory-synchronization engine

Shallow embedding of the folderfort client library (folder resolution,
entry lookup, entry deletion, file upload, directory sync driver) and of
the client constructor's argument validation.

The client code performs HTTP requests through an abstract request doer.
We mirror that: every client operation is a pure function parameterized by
a `Transport σ` (the four remote endpoints the engine uses), threading a
transport state `σ` and accumulating the list of requests it issued.
Two transports are instantiated:
* `serverTransport`, a state-holding model of the remote FolderFort
  service, faithful to the spec's description of the external interface
  (entry index = best-effort substring search whose parent filter is not
  honored, folder creation, batched delete, multipart upload);
* `scriptTransport`, which replays an arbitrary pre-determined list of
  responses, used to express claims about failure handling.

Paths and names are represented as `List Char` (the code treats strings
as byte/char sequences; no encoding subtleties are relevant here).
-/

namespace FolderFort

/-- Error kinds of the engine, following the error taxonomy the client
code realizes with wrapped Go errors: empty-name validation errors,
local-filesystem errors, transport (network/body-read) failures, JSON
parse failures, non-2xx HTTP statuses, and the internal "folder not
found" lookup outcome. -/
inductive Err where
  | invalidArgument (msg : String)
  | ioError (msg : String)
  | transportFailure (msg : String)
  | parseFailure (msg : String)
  | remoteRejected (status : Nat) (body : String)
  | notFound (msg : String)
deriving DecidableEq

/-- Entry types accepted by the index query's optional type filter
(`IndexEntryParamsType` in the source; the engine only ever passes
`folder`). -/
inductive EntryType where
  | folder
  | file
deriving DecidableEq

/-- One element of the index query response (`indexEntryResponseT.Data`
in the source). The source also decodes `file_name` and `path`, but uses
them only in log lines, so they are omitted. Note that the source decodes
`parent_id` as a plain `int64`: a root entry (JSON null / absent parent)
decodes to `0`. -/
structure RawEntry where
  id : Int
  name : List Char
  parentID : Int
deriving DecidableEq

/-- Query parameters of the index-entry endpoint (`IndexEntryParams`):
a text query, an optional parent-ID list, an optional type filter.
The source stringifies the parent IDs; that is irrelevant here. -/
structure IndexEntryParams where
  query : List Char
  parentIds : Option (List Int)
  typ : Option EntryType
deriving DecidableEq

/-- The observable requests the engine can issue. An `upload` request
stands for the whole multipart POST body: the optional `parentId` part
(present iff the parent is non-null) followed by the `file` part with
its file name and MIME type. -/
inductive Request where
  | index (params : IndexEntryParams)
  | createFolder (name : List Char) (parentId : Option Int)
  | deleteEntries (ids : List Int)
  | upload (parentId : Option Int) (fileName : List Char) (mimeType : String)
deriving DecidableEq

/-- Response of the index endpoint as the client observes it: a network
error, a body-read error, or an HTTP status with a body that either
parses to an entry list or fails to parse (`none`). -/
inductive IndexResp where
  | netErr (msg : String)
  | readErr (msg : String)
  | http (status : Nat) (data : Option (List RawEntry))
deriving DecidableEq

/-- Response of the folder-creation endpoint: network error, body-read
error, or HTTP status with a body that parses to `folder.id` or not. -/
inductive CreateResp where
  | netErr (msg : String)
  | readErr (msg : String)
  | http (status : Nat) (folderId : Option Int)
deriving DecidableEq

/-- Response of the batched entry-deletion endpoint. -/
inductive DeleteResp where
  | netErr (msg : String)
  | readErr (msg : String)
  | http (status : Nat)
deriving DecidableEq

/-- Response of the upload endpoint. The source ignores body-read errors
on the failure path (`body, _ := io.ReadAll`), so there is no read-error
case. -/
inductive UploadResp where
  | netErr (msg : String)
  | http (status : Nat)
deriving DecidableEq

/-- The abstract transport: the four remote endpoints the engine calls,
each a function of a transport state `σ`. This mirrors the
`HttpRequestDoer` abstraction of the source. -/
structure Transport (σ : Type) where
  indexEntry : σ → IndexEntryParams → IndexResp × σ
  createFolder : σ → List Char → Option Int → CreateResp × σ
  entriesDelete : σ → List Int → DeleteResp × σ
  uploadWithBody : σ → Option Int → List Char → String → UploadResp × σ

/-- `filepath.Split` followed by `strings.TrimSuffix(dir, "/")`, fused:
`splitAtLastSlash l = some (d, b)` iff `l = d ++ '/' :: b` with no `'/'`
in `b`; `none` iff `l` contains no slash. `d` is everything strictly
before the last slash, `b` everything after it. -/
def splitAtLastSlash : List Char → Option (List Char × List Char)
  | [] => none
  | c :: rest =>
    match splitAtLastSlash rest with
    | some (d, b) => some (c :: d, b)
    | none => if c = '/' then some ([], rest) else none

theorem splitAtLastSlash_length {l d b : List Char}
    (h : splitAtLastSlash l = some (d, b)) : d.length < l.length := by
  induction l generalizing d b with
  | nil => simp [splitAtLastSlash] at h
  | cons c rest ih =>
    rw [splitAtLastSlash] at h
    cases hr : splitAtLastSlash rest with
    | some p =>
      obtain ⟨d', b'⟩ := p
      rw [hr] at h
      simp only [Option.some.injEq, Prod.mk.injEq] at h
      obtain ⟨rfl, rfl⟩ := h
      simpa using ih hr
    | none =>
      rw [hr] at h
      by_cases hc : c = '/'
      · simp only [hc, if_pos rfl, Option.some.injEq, Prod.mk.injEq] at h
        obtain ⟨rfl, rfl⟩ := h
        simp
      · simp [hc] at h

theorem splitAtLastSlash_eq_none {l : List Char} :
    splitAtLastSlash l = none ↔ '/' ∉ l := by
  induction l with
  | nil => simp [splitAtLastSlash]
  | cons c rest ih =>
    rw [splitAtLastSlash]
    cases hr : splitAtLastSlash rest with
    | some p =>
      obtain ⟨d, b⟩ := p
      have hmem : '/' ∈ rest := by
        by_contra hm
        rw [ih.mpr hm] at hr
        exact Option.noConfusion hr
      simp [hmem]
    | none =>
      by_cases hc : c = '/'
      · simp [hc]
      · simp only [if_neg hc, List.mem_cons]
        constructor
        · intro _ h
          rcases h with h | h
          · exact hc h.symm
          · exact (ih.mp hr) h
        · intro _; trivial

theorem splitAtLastSlash_no_slash {l d b : List Char}
    (h : splitAtLastSlash l = some (d, b)) : '/' ∉ b := by
  induction l generalizing d b with
  | nil => simp [splitAtLastSlash] at h
  | cons c rest ih =>
    rw [splitAtLastSlash] at h
    cases hr : splitAtLastSlash rest with
    | some p =>
      obtain ⟨d', b'⟩ := p
      rw [hr] at h
      simp only [Option.some.injEq, Prod.mk.injEq] at h
      obtain ⟨rfl, rfl⟩ := h
      exact ih hr
    | none =>
      rw [hr] at h
      by_cases hc : c = '/'
      · simp only [hc, if_pos rfl, Option.some.injEq, Prod.mk.injEq] at h
        obtain ⟨rfl, rfl⟩ := h
        exact splitAtLastSlash_eq_none.mp hr
      · simp [hc] at h

/-- `strings.Contains`: `pat` occurs as a contiguous substring of `s`. -/
def containsSubstr : List Char → List Char → Bool
  | [], pat => pat.isEmpty
  | c :: t, pat => pat.isPrefixOf (c :: t) || containsSubstr t pat

theorem containsSubstr_iff_infix {s pat : List Char} :
    containsSubstr s pat = true ↔ pat <:+: s := by
  induction s with
  | nil => simp [containsSubstr, List.isEmpty_iff]
  | cons c t ih =>
    rw [containsSubstr]
    simp only [Bool.or_eq_true, List.isPrefixOf_iff_prefix, ih]
    constructor
    · rintro (h | h)
      · exact h.isInfix
      · exact h.trans (List.suffix_cons c t).isInfix
    · intro h
      rcases List.infix_cons_iff.mp h with h | h
      · exact Or.inl h
      · exact Or.inr h

theorem containsSubstr_self (l : List Char) : containsSubstr l l = true :=
  containsSubstr_iff_infix.mpr (List.infix_refl l)

/-- The parent check of `getEntriesByName`'s post-filter: trivially true
when no parent was requested, exact equality with the reported parent
otherwise. -/
def parentOk (parentID : Option Int) (reported : Int) : Bool :=
  match parentID with
  | none => true
  | some q => q == reported

/-- The client-side post-filter of `getEntriesByName` (the loop over
`indexEntryResp.Data`): a result is skipped when a parent was requested
and the reported parent differs (the source logs it), and kept iff its
name equals the query exactly. -/
def filterEntries (name : List Char) (parentID : Option Int)
    (data : List RawEntry) : List Int :=
  (data.filter fun v => parentOk parentID v.parentID && v.name == name).map
    fun v => v.id

/-- `getEntriesByName`: build the index query (the parent-ID filter is
included iff `parentID` is non-null), issue it, fail on network error,
body-read error, non-200 status, or parse failure, and otherwise
post-filter the results client-side. -/
def getEntriesByName {σ : Type} (T : Transport σ) (st : σ) (name : List Char)
    (parentID : Option Int) (typ : Option EntryType) :
    Except Err (List Int) × σ × List Request :=
  let params : IndexEntryParams := ⟨name, parentID.map fun p => [p], typ⟩
  let r := T.indexEntry st params
  let req := Request.index params
  match r.1 with
  | .netErr m => (.error (.transportFailure m), r.2, [req])
  | .readErr m => (.error (.transportFailure m), r.2, [req])
  | .http status data =>
    if status ≠ 200 then
      (.error (.remoteRejected status "failed to get folder"), r.2, [req])
    else
      match data with
      | none => (.error (.parseFailure "failed to parse response"), r.2, [req])
      | some entries => (.ok (filterEntries name parentID entries), r.2, [req])

/-- `getFolder`: look up a single-segment folder by name under a parent
(type filter `folder`); the first match wins, no match is the
"unable to find folder" error. -/
def getFolder {σ : Type} (T : Transport σ) (st : σ) (name : List Char)
    (parentID : Option Int) : Except Err Int × σ × List Request :=
  match getEntriesByName T st name parentID (some .folder) with
  | (.error e, st1, tr1) => (.error e, st1, tr1)
  | (.ok ids, st1, tr1) =>
    match ids with
    | id :: _ => (.ok id, st1, tr1)
    | [] => (.error (.notFound "unable to find folder"), st1, tr1)

/-- The folder-creation request of `GetOrCreateFolder` (payload
`{name, parentId?}`; `json.Marshal` of that payload cannot fail):
fail on network error, body-read error, non-200 status, or parse
failure, otherwise return the new folder's ID. -/
def createFolderRemote {σ : Type} (T : Transport σ) (st : σ) (name : List Char)
    (parentID : Option Int) : Except Err Int × σ × List Request :=
  let r := T.createFolder st name parentID
  let req := Request.createFolder name parentID
  match r.1 with
  | .netErr m => (.error (.transportFailure m), r.2, [req])
  | .readErr m => (.error (.transportFailure m), r.2, [req])
  | .http status folderId =>
    if status ≠ 200 then
      (.error (.remoteRejected status "failed to create folder"), r.2, [req])
    else
      match folderId with
      | none => (.error (.parseFailure "failed to parse response"), r.2, [req])
      | some id => (.ok id, r.2, [req])

/-- The single-segment tail of `GetOrCreateFolder` (source lines
194–231): if the folder lookup succeeds return its ID (idempotent
short-circuit, no mutation); on any lookup error fall through to the
creation request. -/
def getOrCreateStep {σ : Type} (T : Transport σ) (st : σ) (name : List Char)
    (parentID : Option Int) : Except Err Int × σ × List Request :=
  match getFolder T st name parentID with
  | (.ok id, st1, tr1) => (.ok id, st1, tr1)
  | (.error _, st1, tr1) =>
    match createFolderRemote T st1 name parentID with
    | (r, st2, tr2) => (r, st2, tr1 ++ tr2)

/-- `GetOrCreateFolder`: empty names are rejected outright; a name with
a slash is split at its last slash, the part before it is resolved
recursively with the same starting parent, and its ID becomes the parent
of the final segment. When the part before the last slash is empty (a
root-style name such as `/a`), the source leaves `name` unchanged and
performs a single step on it. The source wraps errors of the recursive
call in a message; the wrapping only prepends text, so the error value is
propagated unchanged here. -/
def GetOrCreateFolder {σ : Type} (T : Transport σ) (st : σ) (name : List Char)
    (parentID : Option Int) : Except Err Int × σ × List Request :=
  if name = [] then (.error (.invalidArgument "name must not be empty"), st, [])
  else
    match hs : splitAtLastSlash name with
    | some (parentDir, baseDir) =>
      if parentDir = [] then getOrCreateStep T st name parentID
      else
        match GetOrCreateFolder T st parentDir parentID with
        | (.ok pid, st1, tr1) =>
          match getOrCreateStep T st1 baseDir (some pid) with
          | (r, st2, tr2) => (r, st2, tr1 ++ tr2)
        | (.error e, st1, tr1) => (.error e, st1, tr1)
    | none => getOrCreateStep T st name parentID
termination_by name.length
decreasing_by
  exact splitAtLastSlash_length hs

/-- `DeleteEntries`: one batched deletion request carrying all IDs
(the source stringifies them; irrelevant here); fail on network error,
body-read error, or non-200 status. -/
def DeleteEntries {σ : Type} (T : Transport σ) (st : σ) (ids : List Int) :
    Except Err Unit × σ × List Request :=
  let r := T.entriesDelete st ids
  let req := Request.deleteEntries ids
  match r.1 with
  | .netErr m => (.error (.transportFailure m), r.2, [req])
  | .readErr m => (.error (.transportFailure m), r.2, [req])
  | .http status =>
    if status ≠ 200 then
      (.error (.remoteRejected status "failed to delete entries"), r.2, [req])
    else (.ok (), r.2, [req])

/-- The multipart upload request of `UploadFile` (source lines 290–327):
sends the optional `parentId` part and the `file` part; fails on network
error or a status other than 201 (a body-read error on the failure path
is ignored by the source). The file content is streamed by the source;
its bytes play no role in any property here and are not modeled. -/
def uploadRemote {σ : Type} (T : Transport σ) (st : σ) (fileName : List Char)
    (mimeType : String) (parentID : Option Int) :
    Except Err Unit × σ × List Request :=
  let r := T.uploadWithBody st parentID fileName mimeType
  let req := Request.upload parentID fileName mimeType
  match r.1 with
  | .netErr m => (.error (.transportFailure m), r.2, [req])
  | .http status =>
    if status ≠ 201 then
      (.error (.remoteRejected status "failed to upload file"), r.2, [req])
    else (.ok (), r.2, [req])

/-- The overwrite block of `UploadFile` (source lines 275–288): look up
same-named entries under the parent (no type filter); a lookup error is
logged and ignored; when matches exist, issue one batched deletion whose
outcome is likewise logged and ignored. -/
def overwriteDelete {σ : Type} (T : Transport σ) (st : σ) (fileName : List Char)
    (parentID : Option Int) : σ × List Request :=
  match getEntriesByName T st fileName parentID none with
  | (.error _, st1, tr1) => (st1, tr1)
  | (.ok ids, st1, tr1) =>
    if ids.isEmpty then (st1, tr1)
    else
      match DeleteEntries T st1 ids with
      | (_, st2, tr2) => (st2, tr1 ++ tr2)

/-- The single-segment tail of `UploadFile`: optional overwrite block,
then the upload request. -/
def uploadCore {σ : Type} (T : Transport σ) (st : σ) (fileName : List Char)
    (mimeType : String) (parentID : Option Int) (overwrite : Bool) :
    Except Err Unit × σ × List Request :=
  if overwrite then
    match overwriteDelete T st fileName parentID with
    | (st1, tr1) =>
      match uploadRemote T st1 fileName mimeType parentID with
      | (r, st2, tr2) => (r, st2, tr1 ++ tr2)
  else uploadRemote T st fileName mimeType parentID

/-- `UploadFile`: empty file names are rejected outright; a name with a
slash has the part before its last slash resolved via
`GetOrCreateFolder` (same starting parent), the resulting ID becoming
the upload's parent, and the name is reduced to its final segment; when
the part before the last slash is empty the source leaves the name
unchanged. Then the overwrite block and the upload request run. -/
def UploadFile {σ : Type} (T : Transport σ) (st : σ) (fileName : List Char)
    (mimeType : String) (parentID : Option Int) (overwrite : Bool) :
    Except Err Unit × σ × List Request :=
  if fileName = [] then
    (.error (.invalidArgument "fileName must not be empty"), st, [])
  else
    match splitAtLastSlash fileName with
    | some (parentDir, baseName) =>
      if parentDir = [] then uploadCore T st fileName mimeType parentID overwrite
      else
        match GetOrCreateFolder T st parentDir parentID with
        | (.ok pid, st1, tr1) =>
          match uploadCore T st1 baseName mimeType (some pid) overwrite with
          | (r, st2, tr2) => (r, st2, tr1 ++ tr2)
        | (.error e, st1, tr1) => (.error e, st1, tr1)
    | none => uploadCore T st fileName mimeType parentID overwrite

/-- `filepath.Base` for the slash-separated paths the sync driver
produces (it never passes empty or slash-terminated paths, whose Go
corner cases therefore do not arise). -/
def baseNameOf (p : List Char) : List Char :=
  match splitAtLastSlash p with
  | some (_, b) => b
  | none => p

/-- Modelled from the spec (§4.3): the MIME type is guessed from the
file extension via the platform's mime table (`mime.TypeByExtension`,
which is not part of the repository and is environment-dependent) with a
generic binary default; the guess is collapsed to that default here. No
claim depends on the guessed value. -/
def mimeTypeByExtension (_path : List Char) : String :=
  "application/octet-stream"

/-- `UploadFileFromPath`: open the local file (`openOk` models whether
`os.Open` succeeds), then upload under the path's base name with the
guessed MIME type. -/
def UploadFileFromPath {σ : Type} (T : Transport σ) (st : σ)
    (filePath : List Char) (openOk : Bool) (parentID : Option Int)
    (overwrite : Bool) : Except Err Unit × σ × List Request :=
  if !openOk then (.error (.ioError "error opening file"), st, [])
  else
    UploadFile T st (baseNameOf filePath) (mimeTypeByExtension filePath)
      parentID overwrite

/-- `shouldExclude`: a path is excluded iff some pattern of the
exclusion set occurs as a substring anywhere in it. -/
def shouldExclude (path : List Char) (excludePatterns : List (List Char)) :
    Bool :=
  excludePatterns.any fun p => containsSubstr path p

/-- The default exclusion set of `UploadDirectory`, used when the caller
passes none. -/
def defaultExcludePatterns : List (List Char) :=
  [".git".data, "__pycache__".data, ".DS_Store".data, ".env".data,
   "venv".data, "node_modules".data]

/-- A node of the local filesystem tree as the sync driver observes it:
a file with its size and whether `entry.Info()` and `os.Open` succeed on
it, or a directory with whether `os.ReadDir` succeeds on it and its
children. -/
inductive FSNode where
  | file (name : List Char) (size : Int) (infoOk : Bool) (openOk : Bool)
  | dir (name : List Char) (readable : Bool) (children : List FSNode)

/-- The name of a local directory entry (`entry.Name()`). -/
def FSNode.name : FSNode → List Char
  | .file n _ _ _ => n
  | .dir n _ _ => n

/-- `filepath.Join` for the simple entry names produced by the walk
(no path cleaning is needed for them). -/
def pathJoin (dir name : List Char) : List Char :=
  if dir = [] then name else dir ++ '/' :: name

mutual

/-- The body of `UploadDirectory`'s loop for one directory entry
(source lines 351–392): skip it when excluded; for a non-directory,
skip it (logged, non-fatal) when `Info()` fails or the size exceeds
100 MiB, else upload it with overwrite enabled; for a directory,
resolve/create the matching remote folder and recurse into it with that
folder as parent — the recursive `UploadDirectory` call re-reads the
local directory (`readable`) and passes the same (non-nil) exclusion
patterns on. Any error of folder resolution, recursion, or upload is
returned as is. The fixed 500 ms pause after a file upload is real time
and not modeled. -/
def processEntry {σ : Type} (T : Transport σ) (st : σ) (dirPath : List Char)
    (node : FSNode) (parentID : Option Int) (patterns : List (List Char)) :
    Except Err Unit × σ × List Request :=
  if shouldExclude (pathJoin dirPath node.name) patterns then (.ok (), st, [])
  else
    match node with
    | .file _ size infoOk openOk =>
      if !infoOk then (.ok (), st, [])
      else if size > 100 * 1024 * 1024 then (.ok (), st, [])
      else
        UploadFileFromPath T st (pathJoin dirPath node.name) openOk parentID
          true
    | .dir name readable children =>
      match GetOrCreateFolder T st name parentID with
      | (.ok folderID, st1, tr1) =>
        if readable then
          match
            walkEntries T st1 (pathJoin dirPath name) children (some folderID)
              patterns
          with
          | (r, st2, tr2) => (r, st2, tr1 ++ tr2)
        else (.error (.ioError "error reading directory"), st1, tr1)
      | (.error e, st1, tr1) => (.error e, st1, tr1)

/-- `UploadDirectory`'s loop over the entries of one directory: process
them in order, aborting at the first error. -/
def walkEntries {σ : Type} (T : Transport σ) (st : σ) (dirPath : List Char)
    (nodes : List FSNode) (parentID : Option Int)
    (patterns : List (List Char)) : Except Err Unit × σ × List Request :=
  match nodes with
  | [] => (.ok (), st, [])
  | node :: rest =>
    match processEntry T st dirPath node parentID patterns with
    | (.ok _, st1, tr1) =>
      match walkEntries T st1 dirPath rest parentID patterns with
      | (r, st2, tr2) => (r, st2, tr1 ++ tr2)
    | (.error e, st1, tr1) => (.error e, st1, tr1)

end

/-- `UploadDirectory`: substitute the default exclusion set when the
caller passes none, read the local directory (failing when it is
unreadable, which includes the path not being a directory), then walk
its entries. -/
def UploadDirectory {σ : Type} (T : Transport σ) (st : σ)
    (directoryPath : List Char) (d : FSNode) (parentID : Option Int)
    (excludePatterns : Option (List (List Char))) :
    Except Err Unit × σ × List Request :=
  let patterns := excludePatterns.getD defaultExcludePatterns
  match d with
  | .file _ _ _ _ => (.error (.ioError "error reading directory"), st, [])
  | .dir _ readable children =>
    if readable then walkEntries T st directoryPath children parentID patterns
    else (.error (.ioError "error reading directory"), st, [])

/-- A remote entry of the modeled FolderFort service. -/
structure Entry where
  id : Int
  name : List Char
  parentID : Option Int
  isFolder : Bool
deriving DecidableEq

/-- The state of the modeled FolderFort service: the entry list (in
creation order) and the next ID to assign. -/
structure Server where
  entries : List Entry
  nextID : Int
deriving DecidableEq

/-- How an entry appears in an index response: a root entry's null
parent is decoded to `0` by the client. -/
def rawOfEntry (e : Entry) : RawEntry :=
  ⟨e.id, e.name, e.parentID.getD 0⟩

/-- Whether an entry passes the index query's optional type filter. -/
def typeMatches (typ : Option EntryType) (e : Entry) : Bool :=
  match typ with
  | none => true
  | some .folder => e.isFolder
  | some .file => !e.isFolder

/-- Modelled from the spec (§4.1, §6): the remote index query is a
best-effort substring search over entry names honoring the optional type
filter; its parent-ID filter is not reliably honored and is modeled as
ignored (the worst case the spec allows — the client re-filters). -/
def srvIndexData (s : Server) (p : IndexEntryParams) : List RawEntry :=
  s.entries.filterMap fun e =>
    if containsSubstr e.name p.query && typeMatches p.typ e then
      some (rawOfEntry e)
    else none

/-- Modelled from the spec (§6): the remote FolderFort service. The
index query answers 200 with `srvIndexData`; folder creation answers 200
with a fresh ID and appends the folder; deletion answers 200 and removes
the listed entries; upload answers 201 and appends a file entry. -/
def serverTransport : Transport Server where
  indexEntry s p := (.http 200 (some (srvIndexData s p)), s)
  createFolder s name parentId :=
    (.http 200 (some s.nextID),
     ⟨s.entries ++ [⟨s.nextID, name, parentId, true⟩], s.nextID + 1⟩)
  entriesDelete s ids :=
    (.http 200, ⟨s.entries.filter fun e => !ids.contains e.id, s.nextID⟩)
  uploadWithBody s parentId fileName _mime :=
    (.http 201,
     ⟨s.entries ++ [⟨s.nextID, fileName, parentId, false⟩], s.nextID + 1⟩)

/-- A scripted transport state: pre-determined responses for each
endpoint, consumed in order (an exhausted script answers with a network
error). -/
structure Script where
  idx : List IndexResp
  cre : List CreateResp
  del : List DeleteResp
  upl : List UploadResp
deriving DecidableEq

/-- The scripted transport, used to express claims about the engine's
reaction to arbitrary (also failing) responses. -/
def scriptTransport : Transport Script where
  indexEntry s _ :=
    match s.idx with
    | [] => (.netErr "script exhausted", s)
    | r :: rest => (r, { s with idx := rest })
  createFolder s _ _ :=
    match s.cre with
    | [] => (.netErr "script exhausted", s)
    | r :: rest => (r, { s with cre := rest })
  entriesDelete s _ :=
    match s.del with
    | [] => (.netErr "script exhausted", s)
    | r :: rest => (r, { s with del := rest })
  uploadWithBody s _ _ _ :=
    match s.upl with
    | [] => (.netErr "script exhausted", s)
    | r :: rest => (r, { s with upl := rest })

/-- Go `strings.HasPrefix` on strings. -/
def goHasPrefix (s pre : String) : Bool :=
  pre.data.isPrefixOf s.data

/-- Go `strings.HasSuffix` on strings. -/
def goHasSuffix (s suf : String) : Bool :=
  suf.data.isSuffixOf s.data

/-- `NewClientWithAPIToken`: reject an empty server or token; reject a
server that does not start with `https://` or ends in neither `/api/v1`
nor `/api/v1/`. The underlying generated `NewClient` constructor is not
part of the repository; modelled from the spec (§6) as succeeding once
these checks pass (the only construction option installs the
bearer-token request doer and cannot fail). -/
def NewClientWithAPIToken (server apiToken : String) : Except Err Unit :=
  if server = "" || apiToken = "" then
    .error (.invalidArgument "missing server or apiToken")
  else if !goHasPrefix server "https://" ||
      (!goHasSuffix server "/api/v1" && !goHasSuffix server "/api/v1/") then
    .error
      (.invalidArgument "server must look like: https://na.folderfort.com/api/v1")
  else .ok ()

/-! ## Lemmas about the server-model semantics of folder resolution -/

/-- Whether a server entry is returned by `getFolder`'s lookup for
`(name, parentID)`: it survives the modeled index search (substring,
type = folder) and the client post-filter (exact name, exact reported
parent when one was requested). -/
def folderHit (name : List Char) (parentID : Option Int) (e : Entry) : Bool :=
  containsSubstr e.name name && e.isFolder &&
    parentOk parentID (e.parentID.getD 0) && e.name == name

/-- The IDs `getFolder`'s lookup yields against the server model, in
entry order. -/
def folderHits (name : List Char) (parentID : Option Int) (s : Server) :
    List Int :=
  s.entries.filterMap fun e =>
    if folderHit name parentID e then some e.id else none

theorem filterEntries_srv (name : List Char) (pid : Option Int)
    (l : List Entry) :
    filterEntries name pid (l.filterMap fun e =>
      if containsSubstr e.name name && typeMatches (some .folder) e then
        some (rawOfEntry e)
      else none) =
    l.filterMap fun e => if folderHit name pid e then some e.id else none := by
  induction l with
  | nil => rfl
  | cons e t ih =>
    rw [List.filterMap_cons, List.filterMap_cons]
    cases hc : containsSubstr e.name name <;>
      cases hf : e.isFolder <;>
      cases hp : parentOk pid (e.parentID.getD 0) <;>
      cases hn : e.name == name <;>
      simp_all [folderHit, typeMatches, rawOfEntry, filterEntries,
        List.filter_cons]

/-- `getEntriesByName` against the server model: state untouched,
exactly one index request, the client-filtered entry IDs returned. -/
theorem getEntriesByName_srv (s : Server) (name : List Char)
    (pid : Option Int) (typ : Option EntryType) :
    getEntriesByName serverTransport s name pid typ =
      (Except.ok (filterEntries name pid
        (srvIndexData s ⟨name, pid.map fun q => [q], typ⟩)), s,
       [Request.index ⟨name, pid.map fun q => [q], typ⟩]) := rfl

/-- `getFolder` against the server model: state untouched, exactly one
index request, first lookup hit returned, "not found" otherwise. -/
theorem getFolder_srv (s : Server) (name : List Char) (pid : Option Int) :
    getFolder serverTransport s name pid =
      ((match folderHits name pid s with
        | id :: _ => Except.ok id
        | [] => Except.error (.notFound "unable to find folder")),
       s, [Request.index ⟨name, pid.map fun q => [q], some .folder⟩]) := by
  have hfe : filterEntries name pid
      (srvIndexData s ⟨name, pid.map fun q => [q], some .folder⟩) =
      folderHits name pid s := by
    rw [srvIndexData, filterEntries_srv]
    rfl
  unfold getFolder
  rw [getEntriesByName_srv, hfe]
  cases folderHits name pid s <;> rfl

/-- `s2` extends `s1`: the entry list has only grown at the end (every
server-model mutation appends). -/
def srvLe (s1 s2 : Server) : Prop :=
  ∃ ext, s2.entries = s1.entries ++ ext

theorem srvLe_refl (s : Server) : srvLe s s := ⟨[], by simp⟩

theorem srvLe_trans {s1 s2 s3 : Server} (h12 : srvLe s1 s2)
    (h23 : srvLe s2 s3) : srvLe s1 s3 := by
  obtain ⟨e1, h1⟩ := h12
  obtain ⟨e2, h2⟩ := h23
  exact ⟨e1 ++ e2, by rw [h2, h1, List.append_assoc]⟩

theorem folderHits_le {s1 s2 : Server} (name : List Char) (pid : Option Int)
    (h : srvLe s1 s2) :
    ∃ ext, folderHits name pid s2 = folderHits name pid s1 ++ ext := by
  obtain ⟨e, he⟩ := h
  refine ⟨e.filterMap fun x => if folderHit name pid x then some x.id else none, ?_⟩
  rw [folderHits, he, List.filterMap_append]
  rfl

/-- A freshly created folder entry is a hit for its own lookup. -/
theorem folderHit_new (name : List Char) (pid : Option Int) (i : Int) :
    folderHit name pid ⟨i, name, pid, true⟩ = true := by
  cases pid <;> simp [folderHit, parentOk, containsSubstr_self]

/-- The single-segment step against the server model: a successful step
only appends entries, and re-running it from any further-extended state
finds the same ID with a single index request and no state change. -/
theorem getOrCreateStep_srv_ok {s s' : Server} {name : List Char}
    {pid : Option Int} {id : Int} {tr : List Request}
    (h : getOrCreateStep serverTransport s name pid = (.ok id, s', tr)) :
    srvLe s s' ∧ ∀ s2 : Server, srvLe s' s2 →
      getOrCreateStep serverTransport s2 name pid =
        (.ok id, s2,
         [Request.index ⟨name, pid.map fun q => [q], some .folder⟩]) := by
  unfold getOrCreateStep at h
  rw [getFolder_srv] at h
  cases hh : folderHits name pid s with
  | cons id0 rest =>
    rw [hh] at h
    simp only [Prod.mk.injEq, Except.ok.injEq] at h
    obtain ⟨rfl, rfl, rfl⟩ := h
    refine ⟨srvLe_refl s, ?_⟩
    intro s2 hle
    obtain ⟨ext, hext⟩ := folderHits_le name pid hle
    unfold getOrCreateStep
    rw [getFolder_srv, hext, hh]
    rfl
  | nil =>
    rw [hh] at h
    have hcre : createFolderRemote serverTransport s name pid =
        (.ok s.nextID,
         ⟨s.entries ++ [⟨s.nextID, name, pid, true⟩], s.nextID + 1⟩,
         [Request.createFolder name pid]) := rfl
    simp only [hcre] at h
    simp only [Prod.mk.injEq, Except.ok.injEq] at h
    obtain ⟨rfl, rfl, rfl⟩ := h
    refine ⟨show srvLe s _ from ⟨[⟨s.nextID, name, pid, true⟩], rfl⟩, ?_⟩
    intro s2 hle
    obtain ⟨ext2, hext2⟩ := hle
    have hhits : folderHits name pid s2 = s.nextID :: ext2.filterMap
        (fun x => if folderHit name pid x then some x.id else none) := by
      rw [folderHits, hext2]
      rw [List.filterMap_append, List.filterMap_append]
      have h0 : folderHits name pid s = [] := hh
      rw [folderHits] at h0
      rw [h0]
      simp [folderHit_new]
    unfold getOrCreateStep
    rw [getFolder_srv, hhits]

/-- Unfolding `GetOrCreateFolder` when the name contains no slash:
one single-segment step. -/
theorem gocf_eq_none {σ : Type} (T : Transport σ) (st : σ) {name : List Char}
    (p : Option Int) (hne : name ≠ []) (hsp : splitAtLastSlash name = none) :
    GetOrCreateFolder T st name p = getOrCreateStep T st name p := by
  unfold GetOrCreateFolder
  rw [if_neg hne]
  split
  · rename_i pd bd heq
    rw [hsp] at heq
    exact Option.noConfusion heq
  · rfl

/-- Unfolding `GetOrCreateFolder` when everything before the last slash
is empty (a root-style name such as `/a`): the source skips the
recursion and performs one step on the unchanged name. -/
theorem gocf_eq_rootish {σ : Type} (T : Transport σ) (st : σ)
    {name bd : List Char} (p : Option Int) (hne : name ≠ [])
    (hsp : splitAtLastSlash name = some ([], bd)) :
    GetOrCreateFolder T st name p = getOrCreateStep T st name p := by
  unfold GetOrCreateFolder
  rw [if_neg hne]
  split
  · rename_i pd' bd' heq
    rw [hsp] at heq
    injection heq with h1
    injection h1 with h2 h3
    subst h2
    subst h3
    rw [if_pos rfl]
  · rename_i heq
    rw [hsp] at heq

/-- Unfolding `GetOrCreateFolder` when the name splits at its last slash
into a non-empty prefix and the final segment: the prefix is resolved
first with the same starting parent, and on success its ID becomes the
parent of the single step on the final segment. -/
theorem gocf_eq_rec {σ : Type} (T : Transport σ) (st : σ)
    {name pd bd : List Char} (p : Option Int) (hne : name ≠ [])
    (hsp : splitAtLastSlash name = some (pd, bd)) (hpd : pd ≠ []) :
    GetOrCreateFolder T st name p =
      match GetOrCreateFolder T st pd p with
      | (.ok pid, st1, tr1) =>
        match getOrCreateStep T st1 bd (some pid) with
        | (r, st2, tr2) => (r, st2, tr1 ++ tr2)
      | (.error e, st1, tr1) => (.error e, st1, tr1) := by
  conv_lhs => unfold GetOrCreateFolder
  rw [if_neg hne]
  split
  · rename_i pd' bd' heq
    rw [hsp] at heq
    injection heq with h1
    injection h1 with h2 h3
    subst h2
    subst h3
    rw [if_neg hpd]
  · rename_i heq
    rw [hsp] at heq
    exact Option.noConfusion heq

/-- A successful `GetOrCreateFolder` against the server model only appends
entries, and re-running it from the resulting state (or any further
extension of it) returns the same ID, leaves the state untouched, and
issues only index (lookup) requests. Induction on the bound `n` of the
name length, following the recursion on the prefix before the last
slash. -/
theorem gocf_srv_aux (n : Nat) : ∀ name : List Char, name.length ≤ n →
    ∀ (p : Option Int) (s s' : Server) (id : Int) (tr : List Request),
    GetOrCreateFolder serverTransport s name p = (.ok id, s', tr) →
    srvLe s s' ∧ ∀ s2 : Server, srvLe s' s2 →
      ∃ tr2, GetOrCreateFolder serverTransport s2 name p = (.ok id, s2, tr2) ∧
        ∀ r ∈ tr2, ∃ pr, r = Request.index pr := by
  induction n with
  | zero =>
    intro name hlen p s s' id tr h
    have hname : name = [] := List.length_eq_zero.mp (Nat.le_zero.mp hlen)
    subst hname
    unfold GetOrCreateFolder at h
    simp at h
  | succ n ih =>
    intro name hlen p s s' id tr h
    by_cases hne : name = []
    · subst hne
      unfold GetOrCreateFolder at h
      simp at h
    · cases hsp : splitAtLastSlash name with
      | none =>
        rw [gocf_eq_none serverTransport s p hne hsp] at h
        obtain ⟨hle, hstep⟩ := getOrCreateStep_srv_ok h
        refine ⟨hle, fun s2 hle2 => ?_⟩
        refine ⟨[Request.index ⟨name, p.map fun q => [q], some .folder⟩],
          ?_, ?_⟩
        · rw [gocf_eq_none serverTransport s2 p hne hsp]
          exact hstep s2 hle2
        · intro r hr
          rw [List.mem_singleton] at hr
          exact ⟨_, hr⟩
      | some pb =>
        obtain ⟨pd, bd⟩ := pb
        by_cases hpd : pd = []
        · subst hpd
          rw [gocf_eq_rootish serverTransport s p hne hsp] at h
          obtain ⟨hle, hstep⟩ := getOrCreateStep_srv_ok h
          refine ⟨hle, fun s2 hle2 => ?_⟩
          refine ⟨[Request.index ⟨name, p.map fun q => [q], some .folder⟩],
            ?_, ?_⟩
          · rw [gocf_eq_rootish serverTransport s2 p hne hsp]
            exact hstep s2 hle2
          · intro r hr
            rw [List.mem_singleton] at hr
            exact ⟨_, hr⟩
        · rw [gocf_eq_rec serverTransport s p hne hsp hpd] at h
          rcases hrec : GetOrCreateFolder serverTransport s pd p with
            ⟨r1, st1, tr1⟩
          rw [hrec] at h
          cases r1 with
          | error e => simp at h
          | ok pid1 =>
            dsimp only at h
            rcases hstep :
              getOrCreateStep serverTransport st1 bd (some pid1) with
              ⟨r2, st2, tr2⟩
            rw [hstep] at h
            simp only [Prod.mk.injEq] at h
            obtain ⟨h1, h2, h3⟩ := h
            subst h1
            subst h2
            have hpdlen : pd.length ≤ n :=
              Nat.lt_succ_iff.mp
                (Nat.lt_of_lt_of_le (splitAtLastSlash_length hsp) hlen)
            obtain ⟨hle1, hsec1⟩ := ih pd hpdlen p s st1 pid1 tr1 hrec
            obtain ⟨hle2, hsec2⟩ := getOrCreateStep_srv_ok hstep
            refine ⟨srvLe_trans hle1 hle2, fun s2 hs2 => ?_⟩
            obtain ⟨trp2, hcall2, hidx2⟩ := hsec1 s2 (srvLe_trans hle2 hs2)
            have hstep2 := hsec2 s2 hs2
            refine ⟨trp2 ++
              [Request.index ⟨bd, (some pid1).map fun q => [q],
                some .folder⟩], ?_, ?_⟩
            · rw [gocf_eq_rec serverTransport s2 p hne hsp hpd]
              simp only [hcall2, hstep2]
            · intro r hr
              rcases List.mem_append.mp hr with hr | hr
              · exact hidx2 r hr
              · rw [List.mem_singleton] at hr
                exact ⟨_, hr⟩

/-- Whatever the transport answers, `getEntriesByName` issues exactly
the one index request built from its arguments, the parent filter
present iff a parent was requested. -/
theorem getEntriesByName_trace {σ : Type} (T : Transport σ) (st : σ)
    (name : List Char) (pid : Option Int) (typ : Option EntryType) :
    (getEntriesByName T st name pid typ).2.2 =
      [Request.index ⟨name, pid.map fun q => [q], typ⟩] := by
  cases hresp : (T.indexEntry st ⟨name, pid.map fun q => [q], typ⟩).1 with
  | netErr m => simp [getEntriesByName, hresp]
  | readErr m => simp [getEntriesByName, hresp]
  | http status data =>
    simp only [getEntriesByName, hresp]
    split
    · rfl
    · cases data <;> rfl

/-! ## Claim theorems -/

/-- C1: after a successful `GetOrCreateFolder` call against the server
model, calling it again with the identical `(name, parentID)` arguments
returns the same folder ID, leaves the server state untouched, and
issues only index (lookup) requests — in particular no second
folder-creation request — so repeated calls never create a duplicate
folder once one exists with that exact name under that parent. -/
theorem getOrCreateFolder_idempotent {name : List Char} {p : Option Int}
    {s s' : Server} {id : Int} {tr : List Request}
    (h : GetOrCreateFolder serverTransport s name p = (.ok id, s', tr)) :
    ∃ tr2, GetOrCreateFolder serverTransport s' name p = (.ok id, s', tr2) ∧
      ∀ r ∈ tr2, ∃ pr, r = Request.index pr := by
  obtain ⟨_, hsec⟩ := gocf_srv_aux name.length name le_rfl p s s' id tr h
  exact hsec s' (srvLe_refl s')

theorem getOrCreateFolder_idempotent_witness :
    ∃ tr2, GetOrCreateFolder serverTransport
        ⟨[⟨1, "a".data, none, true⟩, ⟨2, "b".data, some 1, true⟩], 3⟩
        "a/b".data none =
      (.ok 2, ⟨[⟨1, "a".data, none, true⟩, ⟨2, "b".data, some 1, true⟩], 3⟩,
       tr2) ∧
      ∀ r ∈ tr2, ∃ pr, r = Request.index pr :=
  @getOrCreateFolder_idempotent "a/b".data none ⟨[], 1⟩
    ⟨[⟨1, "a".data, none, true⟩, ⟨2, "b".data, some 1, true⟩], 3⟩ 2
    [.index ⟨"a".data, none, some .folder⟩, .createFolder "a".data none,
     .index ⟨"b".data, some [1], some .folder⟩,
     .createFolder "b".data (some 1)]
    (by simp [GetOrCreateFolder, getOrCreateStep, getFolder, getEntriesByName,
      createFolderRemote, serverTransport, srvIndexData, filterEntries,
      splitAtLastSlash, containsSubstr, typeMatches, rawOfEntry, parentOk])

/-- C2: a multi-segment name is split at its final slash; the part
before it is resolved first by the same operation with the same starting
parent, and on success its ID is the effective parent of the single step
on the final segment (first conjunct, for any transport). Concretely,
`GetOrCreateFolder "a/b/c" null` on an empty server resolves/creates
`a` at the root, then `b` under `a`'s ID, then `c` under `b`'s ID, in
that order, each step using the previous step's ID as parent (second
conjunct). -/
theorem getOrCreateFolder_path_splitting :
    (∀ (σ : Type) (T : Transport σ) (st : σ) (name pd bd : List Char)
       (p : Option Int), name ≠ [] → splitAtLastSlash name = some (pd, bd) →
       pd ≠ [] →
       GetOrCreateFolder T st name p =
         match GetOrCreateFolder T st pd p with
         | (.ok pid, st1, tr1) =>
           match getOrCreateStep T st1 bd (some pid) with
           | (r, st2, tr2) => (r, st2, tr1 ++ tr2)
         | (.error e, st1, tr1) => (.error e, st1, tr1)) ∧
    GetOrCreateFolder serverTransport ⟨[], 1⟩ "a/b/c".data none =
      (.ok 3,
       ⟨[⟨1, "a".data, none, true⟩, ⟨2, "b".data, some 1, true⟩,
         ⟨3, "c".data, some 2, true⟩], 4⟩,
       [.index ⟨"a".data, none, some .folder⟩, .createFolder "a".data none,
        .index ⟨"b".data, some [1], some .folder⟩,
        .createFolder "b".data (some 1),
        .index ⟨"c".data, some [2], some .folder⟩,
        .createFolder "c".data (some 2)]) := by
  constructor
  · intro σ T st name pd bd p hne hsp hpd
    exact gocf_eq_rec T st p hne hsp hpd
  · simp [GetOrCreateFolder, getOrCreateStep, getFolder, getEntriesByName,
      createFolderRemote, serverTransport, srvIndexData, filterEntries,
      splitAtLastSlash, containsSubstr, typeMatches, rawOfEntry, parentOk]

theorem getOrCreateFolder_path_splitting_witness :
    GetOrCreateFolder serverTransport (⟨[], 5⟩ : Server) "x/y".data none =
      (.ok 6,
       ⟨[⟨5, "x".data, none, true⟩, ⟨6, "y".data, some 5, true⟩], 7⟩,
       [.index ⟨"x".data, none, some .folder⟩, .createFolder "x".data none,
        .index ⟨"y".data, some [5], some .folder⟩,
        .createFolder "y".data (some 5)]) := by
  rw [getOrCreateFolder_path_splitting.1 Server serverTransport ⟨[], 5⟩
    "x/y".data "x".data "y".data none (by decide) (by decide) (by decide)]
  simp [GetOrCreateFolder, getOrCreateStep, getFolder, getEntriesByName,
    createFolderRemote, serverTransport, srvIndexData, filterEntries,
    splitAtLastSlash, containsSubstr, typeMatches, rawOfEntry, parentOk]

/-- C8: with an empty name, `GetOrCreateFolder` — and with an empty file
name, `UploadFile` — fails immediately with the `InvalidArgument`-style
empty-name error, for every transport, state, and parent, performing no
request at all (empty trace, untouched state). -/
theorem emptyName_invalidArgument :
    (∀ (σ : Type) (T : Transport σ) (st : σ) (p : Option Int),
      GetOrCreateFolder T st [] p =
        (.error (.invalidArgument "name must not be empty"), st, [])) ∧
    (∀ (σ : Type) (T : Transport σ) (st : σ) (mt : String) (p : Option Int)
       (ow : Bool),
      UploadFile T st [] mt p ow =
        (.error (.invalidArgument "fileName must not be empty"), st, [])) := by
  constructor
  · intro σ T st p
    unfold GetOrCreateFolder
    rw [if_pos rfl]
  · intro σ T st mt p ow
    rfl

/-- C10: a lookup with a null parent applies no parent filter at all:
the issued index request carries no parent IDs (first conjunct, any
transport and any response), the client-side post-filter keeps every
exact-name match regardless of its reported parent (second conjunct),
and consequently a root-scoped `GetOrCreateFolder` can return the ID of
a same-named folder nested anywhere — concretely, with the server
holding only folder `a` nested under folder `x`, resolving `a` at the
root returns nested `a`'s ID and creates nothing (third conjunct). -/
theorem rootLookup_unfiltered :
    (∀ (σ : Type) (T : Transport σ) (st : σ) (name : List Char)
       (typ : Option EntryType),
      (getEntriesByName T st name none typ).2.2 =
        [Request.index ⟨name, none, typ⟩]) ∧
    (∀ (name : List Char) (data : List RawEntry),
      filterEntries name none data =
        (data.filter fun v => v.name == name).map fun v => v.id) ∧
    GetOrCreateFolder serverTransport
        ⟨[⟨7, "x".data, none, true⟩, ⟨3, "a".data, some 7, true⟩], 8⟩
        "a".data none =
      (.ok 3, ⟨[⟨7, "x".data, none, true⟩, ⟨3, "a".data, some 7, true⟩], 8⟩,
       [.index ⟨"a".data, none, some .folder⟩]) := by
  refine ⟨?_, ?_, ?_⟩
  · intro σ T st name typ
    simpa using getEntriesByName_trace T st name none typ
  · intro name data
    simp [filterEntries, parentOk]
  · simp [GetOrCreateFolder, getOrCreateStep, getFolder, getEntriesByName,
      createFolderRemote, serverTransport, srvIndexData, filterEntries,
      splitAtLastSlash, containsSubstr, typeMatches, rawOfEntry, parentOk]

/-- Whether an error is a transport or parse failure (the only error
kinds the lookup is claimed to produce). -/
def Err.isTransportOrParse : Err → Bool
  | .transportFailure _ => true
  | .parseFailure _ => true
  | _ => false

/-- C3 counterexample: a delivered HTTP 500 response makes the lookup
return an error, and that error is a `remoteRejected` — neither a
transport failure nor a parse failure — so "errors only on transport or
parse failure" does not hold as stated. -/
theorem getEntriesByName_non200_counterexample :
    getEntriesByName scriptTransport ⟨[.http 500 none], [], [], []⟩
        "a".data none none =
      (.error (.remoteRejected 500 "failed to get folder"),
       ⟨[], [], [], []⟩, [.index ⟨"a".data, none, none⟩]) ∧
    (Err.remoteRejected 500 "failed to get folder").isTransportOrParse =
      false :=
  ⟨rfl, rfl⟩

/-- C3 amended: under an HTTP 200 response whose body parses, the lookup
succeeds with exactly the post-filtered results (first conjunct); an ID
is in the post-filtered results iff some index result carries it with an
exactly equal name and, when a parent was requested, an exactly equal
reported parent — a mismatched parent is discarded, not an error, and
no match yields the empty list without error (second conjunct); and the
lookup errors exactly on a transport (network or body-read) failure, a
non-200 HTTP status, or a parse failure (third conjunct). -/
theorem getEntriesByName_spec :
    (∀ (σ : Type) (T : Transport σ) (st st2 : σ) (name : List Char)
       (pid : Option Int) (typ : Option EntryType) (data : List RawEntry),
       T.indexEntry st ⟨name, pid.map fun q => [q], typ⟩ =
         (.http 200 (some data), st2) →
       getEntriesByName T st name pid typ =
         (.ok (filterEntries name pid data), st2,
          [Request.index ⟨name, pid.map fun q => [q], typ⟩])) ∧
    (∀ (name : List Char) (pid : Option Int) (data : List RawEntry)
       (i : Int),
       i ∈ filterEntries name pid data ↔
         ∃ v ∈ data, v.id = i ∧ v.name = name ∧
           ∀ q, pid = some q → v.parentID = q) ∧
    (∀ (σ : Type) (T : Transport σ) (st st2 : σ) (name : List Char)
       (pid : Option Int) (typ : Option EntryType) (r : IndexResp),
       T.indexEntry st ⟨name, pid.map fun q => [q], typ⟩ = (r, st2) →
       ((∃ e, (getEntriesByName T st name pid typ).1 = .error e) ↔
         (∃ m, r = .netErr m) ∨ (∃ m, r = .readErr m) ∨
         (∃ status data, r = .http status data ∧ status ≠ 200) ∨
         r = .http 200 none)) := by
  refine ⟨?_, ?_, ?_⟩
  · intro σ T st st2 name pid typ data h
    simp [getEntriesByName, h]
  · intro name pid data i
    simp only [filterEntries, List.mem_map, List.mem_filter]
    constructor
    · rintro ⟨v, ⟨hv, hcond⟩, rfl⟩
      simp only [Bool.and_eq_true, beq_iff_eq] at hcond
      refine ⟨v, hv, rfl, hcond.2, ?_⟩
      intro q hq
      subst hq
      simpa [parentOk] using (beq_iff_eq.mp hcond.1).symm
    · rintro ⟨v, hv, rfl, hname, hpar⟩
      refine ⟨v, ⟨hv, ?_⟩, rfl⟩
      simp only [Bool.and_eq_true, beq_iff_eq]
      refine ⟨?_, hname⟩
      cases pid with
      | none => simp [parentOk]
      | some q => simp [parentOk, hpar q rfl]
  · intro σ T st st2 name pid typ r h
    cases r with
    | netErr m => simp [getEntriesByName, h]
    | readErr m => simp [getEntriesByName, h]
    | http status data =>
      by_cases hst : status = 200
      · subst hst
        cases data with
        | none => simp [getEntriesByName, h]
        | some d => simp [getEntriesByName, h]
      · simp [getEntriesByName, h, hst]

theorem getEntriesByName_spec_witness :
    getEntriesByName scriptTransport
        ⟨[.http 200 (some [⟨4, "n".data, 0⟩, ⟨9, "n".data, 5⟩])],
         [], [], []⟩ "n".data none none =
      (.ok [4, 9], ⟨[], [], [], []⟩, [.index ⟨"n".data, none, none⟩]) := by
  have h := getEntriesByName_spec.1 Script scriptTransport
    ⟨[.http 200 (some [⟨4, "n".data, 0⟩, ⟨9, "n".data, 5⟩])], [], [], []⟩
    ⟨[], [], [], []⟩ "n".data none none
    [⟨4, "n".data, 0⟩, ⟨9, "n".data, 5⟩] rfl
  simpa [filterEntries, parentOk] using h

/-- C9 counterexample: the server string
`https://na.folderfort.com/api/v1/` does not end in `/api/v1`, so by the
claim its construction should fail; yet the source deliberately also
accepts the trailing-slash form and construction succeeds. -/
theorem newClient_trailing_slash_counterexample :
    NewClientWithAPIToken "https://na.folderfort.com/api/v1/" "token" =
      .ok () ∧
    goHasSuffix "https://na.folderfort.com/api/v1/" "/api/v1" = false :=
  ⟨rfl, rfl⟩

/-- C9 amended: client construction fails exactly when the server string
or token is empty, the server does not start with `https://`, or the
server ends in neither `/api/v1` nor `/api/v1/`; otherwise it succeeds
— in particular a server ending in `/api/v1/` is also accepted. -/
theorem newClient_validation (server apiToken : String) :
    (∃ e, NewClientWithAPIToken server apiToken = .error e) ↔
      (server = "" ∨ apiToken = "" ∨
       goHasPrefix server "https://" = false ∨
       (goHasSuffix server "/api/v1" = false ∧
        goHasSuffix server "/api/v1/" = false)) := by
  unfold NewClientWithAPIToken
  by_cases h1 : server = "" <;> by_cases h2 : apiToken = "" <;>
    by_cases h3 : goHasPrefix server "https://" = true <;>
    by_cases h4 : goHasSuffix server "/api/v1" = true <;>
    by_cases h5 : goHasSuffix server "/api/v1/" = true <;>
    simp_all

/-- The result of the final upload request alone, as a function of the
transport's answer to it (matching `uploadRemote`'s result component). -/
def uploadOutcome (u : UploadResp) : Except Err Unit :=
  match u with
  | .netErr m => .error (.transportFailure m)
  | .http status =>
    if status ≠ 201 then .error (.remoteRejected status "failed to upload file")
    else .ok ()

/-- The result of the batched deletion request alone, as a function of
the transport's answer to it. -/
def deleteOutcome (d : DeleteResp) : Except Err Unit :=
  match d with
  | .netErr m => .error (.transportFailure m)
  | .readErr m => .error (.transportFailure m)
  | .http status =>
    if status ≠ 200 then
      .error (.remoteRejected status "failed to delete entries")
    else .ok ()

theorem DeleteEntries_script (i : List IndexResp) (c : List CreateResp)
    (d : DeleteResp) (dr : List DeleteResp) (u : List UploadResp)
    (ids : List Int) :
    DeleteEntries scriptTransport ⟨i, c, d :: dr, u⟩ ids =
      (deleteOutcome d, ⟨i, c, dr, u⟩, [.deleteEntries ids]) := by
  cases d with
  | netErr m => rfl
  | readErr m => rfl
  | http status =>
    simp only [DeleteEntries, scriptTransport, deleteOutcome]
    split <;> rfl

theorem uploadRemote_script (i : List IndexResp) (c : List CreateResp)
    (d : List DeleteResp) (u : UploadResp) (ur : List UploadResp)
    (fileName : List Char) (mt : String) (pid : Option Int) :
    uploadRemote scriptTransport ⟨i, c, d, u :: ur⟩ fileName mt pid =
      (uploadOutcome u, ⟨i, c, d, ur⟩, [.upload pid fileName mt]) := by
  cases u with
  | netErr m => rfl
  | http status =>
    simp only [uploadRemote, scriptTransport, uploadOutcome]
    split <;> rfl

/-- C4: in an overwrite upload (simple file name) whose lookup answers
HTTP 200 with results that post-filter to a non-empty ID list, exactly
one batched deletion carrying all those IDs is issued, followed by
exactly one upload request, and the call's outcome is that of the upload
alone — whatever the deletion response `d` is, including failing ones
(first conjunct). When the lookup itself fails, the deletion is skipped
and the upload still proceeds, again with its outcome alone returned
(second conjunct): lookup and deletion failures are never the call's
error. -/
theorem uploadFile_overwrite_spec :
    (∀ (fileName : List Char) (mt : String) (pid : Option Int)
       (data : List RawEntry) (d : DeleteResp) (u : UploadResp),
       fileName ≠ [] → splitAtLastSlash fileName = none →
       filterEntries fileName pid data ≠ [] →
       UploadFile scriptTransport ⟨[.http 200 (some data)], [], [d], [u]⟩
           fileName mt pid true =
         (uploadOutcome u, ⟨[], [], [], []⟩,
          [.index ⟨fileName, pid.map fun q => [q], none⟩,
           .deleteEntries (filterEntries fileName pid data),
           .upload pid fileName mt])) ∧
    (∀ (fileName : List Char) (mt : String) (pid : Option Int) (m : String)
       (u : UploadResp),
       fileName ≠ [] → splitAtLastSlash fileName = none →
       UploadFile scriptTransport ⟨[.netErr m], [], [], [u]⟩
           fileName mt pid true =
         (uploadOutcome u, ⟨[], [], [], []⟩,
          [.index ⟨fileName, pid.map fun q => [q], none⟩,
           .upload pid fileName mt])) := by
  constructor
  · intro fileName mt pid data d u hne hsp hids
    rcases hl : filterEntries fileName pid data with _ | ⟨i0, irest⟩
    · exact absurd hl hids
    · have hlook : getEntriesByName scriptTransport
          ⟨[.http 200 (some data)], [], [d], [u]⟩ fileName pid none =
          (.ok (filterEntries fileName pid data), ⟨[], [], [d], [u]⟩,
           [.index ⟨fileName, pid.map fun q => [q], none⟩]) := rfl
      rw [hl] at hlook
      simp [UploadFile, if_neg hne, hsp, uploadCore, overwriteDelete,
        hlook, DeleteEntries_script, uploadRemote_script, hl]
  · intro fileName mt pid m u hne hsp
    have hlook : getEntriesByName scriptTransport
        ⟨[.netErr m], [], [], [u]⟩ fileName pid none =
        (.error (.transportFailure m), ⟨[], [], [], [u]⟩,
         [.index ⟨fileName, pid.map fun q => [q], none⟩]) := rfl
    simp [UploadFile, if_neg hne, hsp, uploadCore, overwriteDelete,
      hlook, uploadRemote_script]

theorem uploadFile_overwrite_spec_witness :
    UploadFile scriptTransport
        ⟨[.http 200 (some [⟨5, "r".data, 0⟩])], [], [.http 500],
         [.http 201]⟩ "r".data "application/pdf" none true =
      (.ok (), ⟨[], [], [], []⟩,
       [.index ⟨"r".data, none, none⟩, .deleteEntries [5],
        .upload none "r".data "application/pdf"]) := by
  have h := uploadFile_overwrite_spec.1 "r".data "application/pdf" none
    [⟨5, "r".data, 0⟩] (.http 500) (.http 201) (by decide) (by decide)
    (by decide)
  simpa [filterEntries, parentOk, uploadOutcome] using h

theorem walkEntries_nil {σ : Type} (T : Transport σ) (st : σ)
    (path : List Char) (pid : Option Int) (pats : List (List Char)) :
    walkEntries T st path [] pid pats = (.ok (), st, []) := by
  unfold walkEntries
  rfl

theorem walkEntries_cons {σ : Type} (T : Transport σ) (st : σ)
    (path : List Char) (node : FSNode) (rest : List FSNode)
    (pid : Option Int) (pats : List (List Char)) :
    walkEntries T st path (node :: rest) pid pats =
      match processEntry T st path node pid pats with
      | (.ok _, st1, tr1) =>
        match walkEntries T st1 path rest pid pats with
        | (r, st2, tr2) => (r, st2, tr1 ++ tr2)
      | (.error e, st1, tr1) => (.error e, st1, tr1) := by
  conv_lhs => unfold walkEntries

/-- C5: the directory walk is fail-fast. First conjunct: when a prefix
of a directory's entries processes cleanly and the next entry fails with
a fatal error, the whole walk of that entry list returns exactly that
error, its state and trace stop at the failing entry, and nothing of the
remaining sibling entries runs. Second conjunct: an unreadable directory
fails immediately with an IO error before any request. -/
theorem uploadDirectory_failFast :
    (∀ (σ : Type) (T : Transport σ) (st st1 st2 : σ) (path : List Char)
       (pre post : List FSNode) (bad : FSNode) (pid : Option Int)
       (pats : List (List Char)) (e : Err) (tr1 tr2 : List Request),
       walkEntries T st path pre pid pats = (.ok (), st1, tr1) →
       processEntry T st1 path bad pid pats = (.error e, st2, tr2) →
       walkEntries T st path (pre ++ bad :: post) pid pats =
         (.error e, st2, tr1 ++ tr2)) ∧
    (∀ (σ : Type) (T : Transport σ) (st : σ) (path nm : List Char)
       (children : List FSNode) (pid : Option Int)
       (ex : Option (List (List Char))),
       UploadDirectory T st path (.dir nm false children) pid ex =
         (.error (.ioError "error reading directory"), st, [])) := by
  constructor
  · intro σ T st st1 st2 path pre post bad pid pats e tr1 tr2 hpre hbad
    induction pre generalizing st tr1 with
    | nil =>
      rw [walkEntries_nil] at hpre
      simp only [Prod.mk.injEq] at hpre
      obtain ⟨-, rfl, rfl⟩ := hpre
      rw [List.nil_append, walkEntries_cons, hbad]
      simp
    | cons c pre' ihp =>
      rw [walkEntries_cons] at hpre
      rcases hc : processEntry T st path c pid pats with ⟨rc, stc, trc⟩
      rw [hc] at hpre
      cases rc with
      | error ec => simp at hpre
      | ok uc =>
        dsimp only at hpre
        rcases hw : walkEntries T stc path pre' pid pats with ⟨rw2, stw, trw⟩
        rw [hw] at hpre
        dsimp only at hpre
        simp only [Prod.mk.injEq] at hpre
        obtain ⟨hr, rfl, rfl⟩ := hpre
        subst hr
        rw [List.cons_append, walkEntries_cons, hc]
        dsimp only
        rw [ihp stc trw hw]
        simp
  · intro σ T st path nm children pid ex
    simp [UploadDirectory]

theorem uploadDirectory_failFast_witness :
    walkEntries serverTransport (⟨[], 1⟩ : Server) "d".data
        ([FSNode.file "a".data 1 true true] ++
          FSNode.file "b".data 1 true false ::
            [FSNode.file "c".data 1 true true]) none
        defaultExcludePatterns =
      (.error (.ioError "error opening file"),
       (⟨[⟨1, "a".data, none, false⟩], 2⟩ : Server),
       [.index ⟨"a".data, none, none⟩,
        .upload none "a".data "application/octet-stream"] ++ []) := by
  refine uploadDirectory_failFast.1 Server serverTransport ⟨[], 1⟩
    ⟨[⟨1, "a".data, none, false⟩], 2⟩ ⟨[⟨1, "a".data, none, false⟩], 2⟩
    "d".data [FSNode.file "a".data 1 true true]
    [FSNode.file "c".data 1 true true] (FSNode.file "b".data 1 true false)
    none defaultExcludePatterns (.ioError "error opening file")
    [.index ⟨"a".data, none, none⟩,
     .upload none "a".data "application/octet-stream"] [] ?_ ?_
  · rw [walkEntries_cons]
    simp [processEntry, FSNode.name, shouldExclude, pathJoin, containsSubstr,
      defaultExcludePatterns, UploadFileFromPath, baseNameOf,
      splitAtLastSlash, mimeTypeByExtension, UploadFile, uploadCore,
      overwriteDelete, getEntriesByName, serverTransport, srvIndexData,
      filterEntries, typeMatches, rawOfEntry, parentOk, uploadRemote,
      walkEntries_nil]
  · simp [processEntry, FSNode.name, shouldExclude, pathJoin, containsSubstr,
      defaultExcludePatterns, UploadFileFromPath]

/-- C6: a path is excluded by the sync driver iff some pattern of the
exclusion set occurs as a substring anywhere in it (first conjunct).
Concretely (second conjunct): syncing directory `project` containing the
readable directory `.git` (which holds the file `config`) and the file
`gitlog.txt`, with the default exclusion set (which contains `.git`),
issues no request whatsoever for anything under `.git` — `config` is
never uploaded — while `gitlog.txt` is uploaded. -/
theorem shouldExclude_spec :
    (∀ (path : List Char) (pats : List (List Char)),
       shouldExclude path pats = true ↔ ∃ p ∈ pats, p <:+: path) ∧
    UploadDirectory serverTransport ⟨[], 1⟩ "project".data
        (.dir "project".data true
          [.dir ".git".data true [.file "config".data 10 true true],
           .file "gitlog.txt".data 10 true true]) none none =
      (.ok (), ⟨[⟨1, "gitlog.txt".data, none, false⟩], 2⟩,
       [.index ⟨"gitlog.txt".data, none, none⟩,
        .upload none "gitlog.txt".data "application/octet-stream"]) := by
  constructor
  · intro path pats
    simp [shouldExclude, List.any_eq_true, containsSubstr_iff_infix]
  · rw [UploadDirectory]
    simp only [Option.getD_none]
    rw [if_pos trivial, walkEntries_cons]
    have hskip : processEntry serverTransport (⟨[], 1⟩ : Server)
        "project".data
        (.dir ".git".data true [.file "config".data 10 true true]) none
        defaultExcludePatterns = (.ok (), ⟨[], 1⟩, []) := by
      rw [processEntry]
      rw [if_pos (by decide)]
    rw [hskip]
    dsimp only
    rw [walkEntries_cons]
    have hup : processEntry serverTransport (⟨[], 1⟩ : Server)
        "project".data (.file "gitlog.txt".data 10 true true) none
        defaultExcludePatterns =
        (.ok (), ⟨[⟨1, "gitlog.txt".data, none, false⟩], 2⟩,
         [.index ⟨"gitlog.txt".data, none, none⟩,
          .upload none "gitlog.txt".data "application/octet-stream"]) := by
      rw [processEntry]
      rw [if_neg (by decide)]
      simp [FSNode.name, pathJoin, UploadFileFromPath, baseNameOf,
        splitAtLastSlash, mimeTypeByExtension, UploadFile, uploadCore,
        overwriteDelete, getEntriesByName, serverTransport, srvIndexData,
        filterEntries, typeMatches, rawOfEntry, parentOk, uploadRemote]
    rw [hup]
    dsimp only
    simp [walkEntries_nil]

/-- C7: the size ceiling of the sync driver. First conjunct: a file of
exactly 100 MiB is uploaded — walking it against the (empty) server
model succeeds and issues its lookup and upload requests. Second
conjunct: for every transport, a non-excluded file of 100 MiB + 1 bytes
is skipped silently — processing it issues no request, changes nothing
and reports no error, the walk simply continuing with the remaining
entries. -/
theorem sizeCeiling_spec :
    (walkEntries serverTransport ⟨[], 1⟩ "d".data
        [.file "big.bin".data (100 * 1024 * 1024) true true] none
        defaultExcludePatterns =
      (.ok (), ⟨[⟨1, "big.bin".data, none, false⟩], 2⟩,
       [.index ⟨"big.bin".data, none, none⟩,
        .upload none "big.bin".data "application/octet-stream"])) ∧
    (∀ (σ : Type) (T : Transport σ) (st : σ) (path nm : List Char)
       (infoOk openOk : Bool) (rest : List FSNode) (pid : Option Int)
       (pats : List (List Char)),
       shouldExclude (pathJoin path nm) pats = false →
       walkEntries T st path
           (.file nm (100 * 1024 * 1024 + 1) infoOk openOk :: rest) pid
           pats =
         walkEntries T st path rest pid pats) := by
  constructor
  · rw [walkEntries_cons]
    have hup : processEntry serverTransport (⟨[], 1⟩ : Server) "d".data
        (.file "big.bin".data (100 * 1024 * 1024) true true) none
        defaultExcludePatterns =
        (.ok (), ⟨[⟨1, "big.bin".data, none, false⟩], 2⟩,
         [.index ⟨"big.bin".data, none, none⟩,
          .upload none "big.bin".data "application/octet-stream"]) := by
      rw [processEntry]
      rw [if_neg (by decide)]
      simp [FSNode.name, pathJoin, UploadFileFromPath, baseNameOf,
        splitAtLastSlash, mimeTypeByExtension, UploadFile, uploadCore,
        overwriteDelete, getEntriesByName, serverTransport, srvIndexData,
        filterEntries, typeMatches, rawOfEntry, parentOk, uploadRemote]
    rw [hup]
    dsimp only
    simp [walkEntries_nil]
  · intro σ T st path nm infoOk openOk rest pid pats hexc
    rw [walkEntries_cons]
    have hskip : processEntry T st path
        (.file nm (100 * 1024 * 1024 + 1) infoOk openOk) pid pats =
        (.ok (), st, []) := by
      rw [processEntry]
      rw [if_neg (by simp [FSNode.name, hexc])]
      cases infoOk with
      | false => rfl
      | true => rfl
    rw [hskip]
    dsimp only
    rcases hw : walkEntries T st path rest pid pats with ⟨r, st2, tr2⟩
    simp

theorem sizeCeiling_spec_witness :
    walkEntries serverTransport (⟨[], 3⟩ : Server) "d".data
        [.file "huge.bin".data (100 * 1024 * 1024 + 1) true true] none
        defaultExcludePatterns =
      walkEntries serverTransport (⟨[], 3⟩ : Server) "d".data [] none
        defaultExcludePatterns :=
  sizeCeiling_spec.2 Server serverTransport ⟨[], 3⟩ "d".data
    "huge.bin".data true true [] none defaultExcludePatterns (by decide)

end FolderFort
